import Mathlib

/-!
Verification of the report-card core of `studentrptprj`:
the score aggregator (`total_score`, `grade`, `remarks` from
`studentrptcard/models.py`) and the rank calculator
(`calculate_subject_positions`, `calculate_class_positions` from
`studentrptcard/views.py`), embedded shallowly.

Decimal score fields are modelled as rationals.  The stable reverse sort
of Python is modelled by `List.insertionSort` with the
descending relation (which is stable for insertion order).  A Python dict
built by repeated assignment is modelled by the association list of writes
in order; reading the dict is looking up the last write (`dictGet`).
-/

namespace StudentRpt

/-- One row of the `Score` model: the four foreign keys and the two
decimal component scores (`class_score`, `exam_score`, each a
`DecimalField`). -/
structure Score where
  student : Nat
  subject : Nat
  term : Nat
  academic_year : Nat
  class_score : ℚ
  exam_score : ℚ
deriving DecidableEq, Repr

/-- `Score.total_score`: `return self.class_score + self.exam_score`. -/
def total_score (s : Score) : ℚ :=
  s.class_score + s.exam_score

/-- `Score.grade`: the if/elif ladder on the total score. -/
def grade (score : ℚ) : String :=
  if score ≥ 80 then "A"
  else if score ≥ 70 then "B"
  else if score ≥ 60 then "C"
  else if score ≥ 50 then "D"
  else "F"

/-- `Score.remarks`: the if/elif ladder on the letter grade. -/
def remarks (g : String) : String :=
  if g = "A" then "Excellent"
  else if g = "B" then "Very Good"
  else if g = "C" then "Good"
  else if g = "D" then "Pass"
  else "Fail"

/-- The Python stable descending sort by a key `f`.  `List.insertionSort`
with `fun a b => f b ≤ f a` inserts an element before the first
already-placed element whose key is `≤` its own, which keeps equal-key
elements in input order, exactly like the stable CPython sort. -/
def sortDescBy {α : Type} (f : α → ℚ) (l : List α) : List α :=
  l.insertionSort (fun a b => f b ≤ f a)

/-- The queryset `order_by` on `-class_score, -exam_score` used by
`calculate_subject_positions` before the Python-level re-sort: descending
lexicographic order on the two component scores. -/
def sortCE (l : List Score) : List Score :=
  l.insertionSort (fun a b =>
    b.class_score < a.class_score ∨
      (b.class_score = a.class_score ∧ b.exam_score ≤ a.exam_score))

/-- The shared ranking walk of both ranking functions:
`for i, x in enumerate(ranked): if i > 0 and value(x) < value(ranked[i-1]):
current_rank = i + 1` and emit `(x, current_rank)`.  `i` is the index of
the head, `cur` the rank assigned at the previous index, `prev` the value
at the previous index (unused when `i = 0`). -/
def rankWalk {α : Type} (f : α → ℚ) : List α → Nat → Nat → ℚ → List (α × Nat)
  | [], _, _, _ => []
  | x :: rest, i, cur, prev =>
    let cur2 := if 0 < i ∧ f x < prev then i + 1 else cur
    (x, cur2) :: rankWalk f rest (i + 1) cur2 (f x)

/-- The ranking walk started as in the source: index 0, `current_rank = 1`
(`prev` is arbitrary since the guard `i > 0` protects it). -/
def assignRanks {α : Type} (f : α → ℚ) (l : List α) : List (α × Nat) :=
  rankWalk f l 0 1 0

/-- First-occurrence deduplication: the order in which the distinct
values query of the outer loop yields each subject once. -/
def dedupFirst : List Nat → List Nat
  | [] => []
  | x :: xs => x :: (dedupFirst xs).filter (fun y => y ≠ x)

/-- Reading key `k` from the dict whose writes, in order, are the entries
of `d`: the last write wins. -/
def dictGet {α β : Type} [BEq α] (d : List (α × β)) (k : α) : Option β :=
  List.lookup k d.reverse

/-- The queryset filter of the score rows down to one subject id. -/
def subjectGroup (scores : List Score) (s : Nat) : List Score :=
  scores.filter (fun r => r.subject == s)

/-- The dict writes performed by one iteration of the outer loop of
`calculate_subject_positions`: filter to the subject, apply the queryset
`order_by`, re-sort stably by `total_score` descending, walk the ranks,
and write `(student_id, subject_id) ↦ current_rank`. -/
def subjectBlock (scores : List Score) (s : Nat) : List ((Nat × Nat) × Nat) :=
  (assignRanks total_score (sortDescBy total_score (sortCE (subjectGroup scores s)))).map
    (fun p => ((p.1.student, s), p.2))

/-- `calculate_subject_positions(scores_queryset)`: the association list of
all dict writes, one block per distinct subject. -/
def calculate_subject_positions (scores : List Score) : List ((Nat × Nat) × Nat) :=
  (dedupFirst (scores.map (fun r => r.subject))).flatMap (fun s => subjectBlock scores s)

/-- The queryset filter of the score rows down to one student, academic
year and term. -/
def studentScores (scores : List Score) (year term st : Nat) : List Score :=
  scores.filter (fun r => r.student == st && r.academic_year == year && r.term == term)

/-- The value stored in `student_averages` for one student: the mean of the
total scores when the student has score rows, else the explicit default
`0`. -/
def averageValue (scores : List Score) (year term st : Nat) : ℚ :=
  if studentScores scores year term st ≠ [] then
    ((studentScores scores year term st).map total_score).sum /
      ((studentScores scores year term st).length : ℚ)
  else 0

/-- The `student_averages` dict of `calculate_class_positions`: keyed by
student id (so duplicate roster entries collapse to their first position),
in roster order. -/
def student_averages (students : List Nat) (scores : List Score) (year term : Nat) :
    List (Nat × ℚ) :=
  (dedupFirst students).map (fun st => (st, averageValue scores year term st))

/-- `calculate_class_positions(students_in_class, academic_year, term)`:
sort the `(student_id, average)` items by average descending, walk the
ranks, and write `student_id ↦ current_rank`. -/
def calculate_class_positions (students : List Nat) (scores : List Score) (year term : Nat) :
    List (Nat × Nat) :=
  (assignRanks Prod.snd (sortDescBy Prod.snd (student_averages students scores year term))).map
    (fun p => (p.1.1, p.2))

def demoScore (st : Nat) (c e : ℚ) : Score :=
  ⟨st, 7, 1, 1, c, e⟩

def demoScores : List Score :=
  [demoScore 1 45 45, demoScore 2 50 40, demoScore 3 40 40,
   demoScore 4 35 35, demoScore 5 30 40, demoScore 6 20 50]

/-- Two records for subject 3 where student 1 holds a negative total. -/
def negDemoScores : List Score :=
  [⟨1, 3, 1, 1, -20, 10⟩, ⟨2, 3, 1, 1, 4, 1⟩]

/-! Section: Basic properties of the ranking walk -/

theorem rankWalk_map_fst {α : Type} (f : α → ℚ) :
    ∀ (l : List α) (i cur : Nat) (prev : ℚ),
      (rankWalk f l i cur prev).map Prod.fst = l
  | [], _, _, _ => rfl
  | x :: rest, i, cur, prev => by
    simp only [rankWalk, List.map_cons]
    exact congrArg (x :: ·) (rankWalk_map_fst f rest (i + 1) _ (f x))

theorem rankWalk_length {α : Type} (f : α → ℚ) (l : List α) (i cur : Nat) (prev : ℚ) :
    (rankWalk f l i cur prev).length = l.length := by
  have h := congrArg List.length (rankWalk_map_fst f l i cur prev)
  simpa using h

theorem mem_fst_of_mem_rankWalk {α : Type} {f : α → ℚ} {l : List α} {i cur : Nat} {prev : ℚ}
    {p : α × Nat} (hp : p ∈ rankWalk f l i cur prev) : p.1 ∈ l := by
  have h := List.mem_map_of_mem Prod.fst hp
  rwa [rankWalk_map_fst] at h

theorem rankWalk_bounds {α : Type} (f : α → ℚ) :
    ∀ (l : List α) (i cur : Nat) (prev : ℚ), 1 ≤ cur → cur ≤ i + 1 →
      ∀ p ∈ rankWalk f l i cur prev, 1 ≤ p.2 ∧ p.2 ≤ i + l.length := by
  intro l
  induction l with
  | nil => intro i cur prev _ _ p hp; simp [rankWalk] at hp
  | cons x rest ih =>
    intro i cur prev h1 h2 p hp
    simp only [rankWalk, List.mem_cons] at hp
    have hca : 1 ≤ (if 0 < i ∧ f x < prev then i + 1 else cur) := by split <;> omega
    have hcb : (if 0 < i ∧ f x < prev then i + 1 else cur) ≤ i + 1 := by split <;> omega
    rcases hp with hp | hp
    · subst hp
      refine ⟨hca, ?_⟩
      simp only [List.length_cons]
      omega
    · have h := ih (i + 1) _ (f x) hca (by omega) p hp
      simp only [List.length_cons]
      omega

theorem rankWalk_ge {α : Type} (f : α → ℚ) :
    ∀ (l : List α) (i cur : Nat) (prev : ℚ), cur ≤ i + 1 →
      ∀ p ∈ rankWalk f l i cur prev, cur ≤ p.2 := by
  intro l
  induction l with
  | nil => intro i cur prev _ p hp; simp [rankWalk] at hp
  | cons x rest ih =>
    intro i cur prev h2 p hp
    simp only [rankWalk, List.mem_cons] at hp
    have hcb : cur ≤ (if 0 < i ∧ f x < prev then i + 1 else cur) := by split <;> omega
    rcases hp with hp | hp
    · subst hp; exact hcb
    · exact le_trans hcb
        (ih (i + 1) _ (f x) (by split <;> omega) p hp)

theorem rankWalk_pairwise_rank {α : Type} (f : α → ℚ) :
    ∀ (l : List α) (i cur : Nat) (prev : ℚ), cur ≤ i + 1 →
      (rankWalk f l i cur prev).Pairwise (fun p q => p.2 ≤ q.2) := by
  intro l
  induction l with
  | nil => intro i cur prev _; simp [rankWalk]
  | cons x rest ih =>
    intro i cur prev h2
    simp only [rankWalk, List.pairwise_cons]
    constructor
    · intro q hq
      exact rankWalk_ge f rest (i + 1) _ (f x) (by split <;> omega) q hq
    · exact ih (i + 1) _ (f x) (by split <;> omega)

theorem rankWalk_pairwise_value {α : Type} (f : α → ℚ) (l : List α) (i cur : Nat) (prev : ℚ)
    (h : List.Sorted (fun a b => f b ≤ f a) l) :
    (rankWalk f l i cur prev).Pairwise (fun p q => f q.1 ≤ f p.1) := by
  have h2 : ((rankWalk f l i cur prev).map Prod.fst).Pairwise (fun a b => f b ≤ f a) := by
    rw [rankWalk_map_fst]; exact h
  exact List.pairwise_map.mp h2

theorem assignRanks_head_rank_one {α : Type} (f : α → ℚ) (x : α) (rest : List α) :
    ∃ xr ∈ assignRanks f (x :: rest), xr = (x, 1) := by
  refine ⟨(x, 1), ?_, rfl⟩
  simp [assignRanks, rankWalk]

/-! Section: The two stable sorts -/

theorem sortDescBy_perm {α : Type} (f : α → ℚ) (l : List α) : (sortDescBy f l).Perm l :=
  List.perm_insertionSort _ l

theorem sortCE_perm (l : List Score) : (sortCE l).Perm l :=
  List.perm_insertionSort _ l

theorem sortDescBy_sorted {α : Type} (f : α → ℚ) (l : List α) :
    List.Sorted (fun a b => f b ≤ f a) (sortDescBy f l) := by
  haveI : IsTotal α (fun a b => f b ≤ f a) := ⟨fun a b => le_total (f b) (f a)⟩
  haveI : IsTrans α (fun a b => f b ≤ f a) := ⟨fun _ _ _ h1 h2 => le_trans h2 h1⟩
  exact List.sorted_insertionSort _ l

theorem sortDescBy_length {α : Type} (f : α → ℚ) (l : List α) :
    (sortDescBy f l).length = l.length :=
  (sortDescBy_perm f l).length_eq

theorem sortCE_length (l : List Score) : (sortCE l).length = l.length :=
  (sortCE_perm l).length_eq

/-! Section: Association-list lookup as a Python dict read -/

theorem lookup_append_or {α β : Type} [BEq α] (k : α) (l1 l2 : List (α × β)) :
    List.lookup k (l1 ++ l2) = (List.lookup k l1).or (List.lookup k l2) := by
  induction l1 with
  | nil => simp
  | cons a rest ih =>
    rcases a with ⟨a1, a2⟩
    cases hb : (k == a1) <;> simp [List.lookup, hb, ih]

theorem lookup_eq_none_of_no_key {α β : Type} [BEq α] [LawfulBEq α] (k : α)
    (l : List (α × β)) (h : ∀ p ∈ l, p.1 ≠ k) : List.lookup k l = none := by
  induction l with
  | nil => rfl
  | cons a rest ih =>
    rcases a with ⟨a1, a2⟩
    have hne : a1 ≠ k := h (a1, a2) (List.mem_cons_self _ _)
    have hb : (k == a1) = false := by
      rcases hbv : (k == a1) with _ | _
      · rfl
      · exact absurd (eq_of_beq hbv).symm hne
    simp only [List.lookup, hb]
    exact ih (fun p hp => h p (List.mem_cons_of_mem _ hp))

theorem lookup_eq_some_of_mem_nodup {α β : Type} [BEq α] [LawfulBEq α] (k : α) (v : β) :
    ∀ (l : List (α × β)), (l.map Prod.fst).Nodup → (k, v) ∈ l →
      List.lookup k l = some v := by
  intro l
  induction l with
  | nil => intro _ hm; simp at hm
  | cons a rest ih =>
    rcases a with ⟨a1, a2⟩
    intro hn hm
    rcases List.mem_cons.mp hm with hm2 | hm2
    · rcases Prod.mk.injEq .. ▸ hm2 with ⟨h1, h2⟩
      simp [List.lookup, h1.symm, h2]
    · have hne : k ≠ a1 := by
        intro hk
        subst hk
        have hk2 : k ∈ rest.map Prod.fst := List.mem_map.mpr ⟨(k, v), hm2, rfl⟩
        simp only [List.map_cons, List.nodup_cons] at hn
        exact hn.1 hk2
      have hb : (k == a1) = false := by
        rcases hbv : (k == a1) with _ | _
        · rfl
        · exact absurd (eq_of_beq hbv) hne
      simp only [List.lookup, hb]
      simp only [List.map_cons, List.nodup_cons] at hn
      exact ih hn.2 hm2

theorem lookup_ne_none_of_key {α β : Type} [BEq α] [LawfulBEq α] (k : α) :
    ∀ (l : List (α × β)), (∃ p ∈ l, p.1 = k) → List.lookup k l ≠ none := by
  intro l
  induction l with
  | nil => intro h; simp at h
  | cons a rest ih =>
    rcases a with ⟨a1, a2⟩
    intro h
    rcases h with ⟨p, hp, hk⟩
    rcases List.mem_cons.mp hp with hp | hp
    · subst hp
      have hb : (k == a1) = true := beq_iff_eq.mpr hk.symm
      simp [List.lookup, hb]
    · cases hb : (k == a1)
      · simp only [List.lookup, hb]
        exact ih ⟨p, hp, hk⟩
      · simp [List.lookup, hb]

theorem dictGet_append {α β : Type} [BEq α] (d1 d2 : List (α × β)) (k : α) :
    dictGet (d1 ++ d2) k = (dictGet d2 k).or (dictGet d1 k) := by
  simp [dictGet, lookup_append_or]

theorem dictGet_eq_none_of_no_key {α β : Type} [BEq α] [LawfulBEq α]
    {d : List (α × β)} {k : α} (h : ∀ p ∈ d, p.1 ≠ k) : dictGet d k = none :=
  lookup_eq_none_of_no_key k d.reverse (fun p hp => h p (List.mem_reverse.mp hp))

theorem dictGet_eq_some_of_mem_nodup {α β : Type} [BEq α] [LawfulBEq α]
    {d : List (α × β)} {k : α} {v : β} (hn : (d.map Prod.fst).Nodup)
    (hm : (k, v) ∈ d) : dictGet d k = some v := by
  refine lookup_eq_some_of_mem_nodup k v d.reverse ?_ (List.mem_reverse.mpr hm)
  rw [List.map_reverse]
  exact List.nodup_reverse.mpr hn

theorem dictGet_ne_none_of_key {α β : Type} [BEq α] [LawfulBEq α]
    {d : List (α × β)} {k : α} (h : ∃ p ∈ d, p.1 = k) : dictGet d k ≠ none := by
  rcases h with ⟨p, hp, hk⟩
  exact lookup_ne_none_of_key k d.reverse ⟨p, List.mem_reverse.mpr hp, hk⟩

/-! Section: First-occurrence dedup -/

theorem mem_dedupFirst : ∀ {l : List Nat} {s : Nat}, s ∈ dedupFirst l ↔ s ∈ l := by
  intro l
  induction l with
  | nil => intro s; simp [dedupFirst]
  | cons x xs ih =>
    intro s
    simp only [dedupFirst, List.mem_cons, List.mem_filter, ih, decide_eq_true_eq]
    by_cases hsx : s = x <;> tauto

theorem nodup_dedupFirst : ∀ (l : List Nat), (dedupFirst l).Nodup := by
  intro l
  induction l with
  | nil => exact List.nodup_nil
  | cons x xs ih =>
    simp only [dedupFirst, List.nodup_cons]
    constructor
    · intro hx
      have := (List.mem_filter.mp hx).2
      simp at this
    · exact List.Nodup.filter _ ih

/-! Section: The per-subject blocks and the dict they build -/

theorem mem_subjectGroup {scores : List Score} {s : Nat} {r : Score} :
    r ∈ subjectGroup scores s ↔ r ∈ scores ∧ r.subject = s := by
  simp [subjectGroup, List.mem_filter]

theorem subjectBlock_shape {scores : List Score} {s : Nat} {p : (Nat × Nat) × Nat}
    (hp : p ∈ subjectBlock scores s) :
    ∃ r, r ∈ scores ∧ r.subject = s ∧ p.1 = (r.student, s) := by
  simp only [subjectBlock, List.mem_map] at hp
  rcases hp with ⟨q, hq, hpq⟩
  have hq1 : q.1 ∈ sortDescBy total_score (sortCE (subjectGroup scores s)) :=
    mem_fst_of_mem_rankWalk hq
  have hq2 : q.1 ∈ subjectGroup scores s :=
    (sortCE_perm _).mem_iff.mp ((sortDescBy_perm _ _).mem_iff.mp hq1)
  rcases mem_subjectGroup.mp hq2 with ⟨hr1, hr2⟩
  exact ⟨q.1, hr1, hr2, by rw [← hpq]⟩

theorem subjectBlock_key {scores : List Score} {s : Nat} {p : (Nat × Nat) × Nat}
    (hp : p ∈ subjectBlock scores s) : p.1.2 = s := by
  rcases subjectBlock_shape hp with ⟨r, _, _, hps⟩
  rw [hps]

theorem dictGet_flatMap_subjectBlock (scores : List Score) :
    ∀ (subs : List Nat) (st s : Nat),
      dictGet (subs.flatMap (fun t => subjectBlock scores t)) (st, s) =
        if s ∈ subs then dictGet (subjectBlock scores s) (st, s) else none := by
  intro subs
  induction subs with
  | nil => intro st s; simp [dictGet]
  | cons a subs ih =>
    intro st s
    rw [List.flatMap_cons, dictGet_append, ih st s]
    by_cases has : s ∈ subs
    · have hmem : s ∈ a :: subs := List.mem_cons_of_mem _ has
      simp only [has, if_true, hmem]
      by_cases hsa : a = s
      · subst hsa
        cases hx : dictGet (subjectBlock scores a) (st, a) <;> simp [hx, Option.or]
      · have hnone : dictGet (subjectBlock scores a) (st, s) = none := by
          apply dictGet_eq_none_of_no_key
          intro p hp hpk
          have hk := subjectBlock_key hp
          rw [hpk] at hk
          exact hsa hk.symm
        cases hx : dictGet (subjectBlock scores s) (st, s) <;> simp [hx, hnone, Option.or]
    · simp only [has, if_false]
      by_cases hsa : s = a
      · subst hsa
        have hmem : s ∈ s :: subs := List.mem_cons_self _ _
        simp [hmem, Option.or]
      · have hmem : s ∉ a :: subs := by
          simp [List.mem_cons, hsa, has]
        have hnone : dictGet (subjectBlock scores a) (st, s) = none := by
          apply dictGet_eq_none_of_no_key
          intro p hp hpk
          have hk := subjectBlock_key hp
          rw [hpk] at hk
          exact hsa hk
        simp [hmem, hnone, Option.or]

theorem dictGet_calculate_subject_positions (scores : List Score) (st s : Nat) :
    dictGet (calculate_subject_positions scores) (st, s) =
      if s ∈ dedupFirst (scores.map (fun r => r.subject)) then
        dictGet (subjectBlock scores s) (st, s) else none :=
  dictGet_flatMap_subjectBlock scores _ st s

theorem mem_subjectsOf_iff (scores : List Score) (s : Nat) :
    s ∈ dedupFirst (scores.map (fun r => r.subject)) ↔ ∃ r ∈ scores, r.subject = s := by
  rw [mem_dedupFirst]
  simp

/-! Section: The overall (class) ranking -/

theorem mem_studentScores {scores : List Score} {year term st : Nat} {r : Score} :
    r ∈ studentScores scores year term st ↔
      r ∈ scores ∧ r.student = st ∧ r.academic_year = year ∧ r.term = term := by
  simp [studentScores, List.mem_filter, and_assoc]

theorem student_averages_keys (students : List Nat) (scores : List Score) (year term : Nat) :
    (student_averages students scores year term).map Prod.fst = dedupFirst students := by
  simp only [student_averages, List.map_map]
  exact List.map_id _

theorem mem_student_averages {students : List Nat} (scores : List Score) (year term : Nat)
    {st : Nat} (hst : st ∈ students) :
    (st, averageValue scores year term st) ∈ student_averages students scores year term := by
  simp only [student_averages, List.mem_map]
  exact ⟨st, mem_dedupFirst.mpr hst, rfl⟩

theorem dictGet_student_averages {students : List Nat} (scores : List Score) (year term : Nat)
    {st : Nat} (hst : st ∈ students) :
    dictGet (student_averages students scores year term) st =
      some (averageValue scores year term st) := by
  apply dictGet_eq_some_of_mem_nodup
  · rw [student_averages_keys]
    exact nodup_dedupFirst students
  · exact mem_student_averages scores year term hst

theorem averageValue_of_empty {scores : List Score} {year term st : Nat}
    (h : studentScores scores year term st = []) :
    averageValue scores year term st = 0 := by
  simp [averageValue, h]

theorem averageValue_of_nonempty {scores : List Score} {year term st : Nat}
    (h : studentScores scores year term st ≠ []) :
    averageValue scores year term st =
      ((studentScores scores year term st).map total_score).sum /
        ((studentScores scores year term st).length : ℚ) := by
  simp [averageValue, h]

theorem exists_mem_rankWalk_of_mem {α : Type} {f : α → ℚ} {l : List α} {i cur : Nat}
    {prev : ℚ} {x : α} (hx : x ∈ l) :
    ∃ q ∈ rankWalk f l i cur prev, q.1 = x := by
  have h : x ∈ (rankWalk f l i cur prev).map Prod.fst := by
    rw [rankWalk_map_fst]; exact hx
  rcases List.mem_map.mp h with ⟨q, hq, hqx⟩
  exact ⟨q, hq, hqx⟩

theorem mem_key_calculate_class_positions {students : List Nat} {scores : List Score}
    {year term st : Nat} (hst : st ∈ students) :
    ∃ p ∈ calculate_class_positions students scores year term, p.1 = st := by
  have h1 : (st, averageValue scores year term st) ∈
      student_averages students scores year term :=
    mem_student_averages scores year term hst
  have h2 : (st, averageValue scores year term st) ∈
      sortDescBy Prod.snd (student_averages students scores year term) :=
    (sortDescBy_perm _ _).mem_iff.mpr h1
  rcases exists_mem_rankWalk_of_mem h2 with ⟨q, hq, hqx⟩
  refine ⟨(q.1.1, q.2), ?_, ?_⟩
  · simp only [calculate_class_positions, List.mem_map]
    exact ⟨q, hq, rfl⟩
  · simp [hqx]

theorem rankMap_le_of_lt {α : Type} (f : α → ℚ) (l : List α) (p q : α × Nat)
    (hp : p ∈ assignRanks f (sortDescBy f l)) (hq : q ∈ assignRanks f (sortDescBy f l))
    (hlt : f q.1 < f p.1) : p.2 ≤ q.2 := by
  have hv := rankWalk_pairwise_value f (sortDescBy f l) 0 1 0 (sortDescBy_sorted f l)
  have hr := rankWalk_pairwise_rank f (sortDescBy f l) 0 1 0 (by omega)
  have hand := hv.and hr
  have hOr : (rankWalk f (sortDescBy f l) 0 1 0).Pairwise (fun p q : α × Nat =>
      (f q.1 ≤ f p.1 ∧ p.2 ≤ q.2) ∨ (f p.1 ≤ f q.1 ∧ q.2 ≤ p.2)) :=
    hand.imp (fun h => Or.inl h)
  have hsym : Symmetric (fun p q : α × Nat =>
      (f q.1 ≤ f p.1 ∧ p.2 ≤ q.2) ∨ (f p.1 ≤ f q.1 ∧ q.2 ≤ p.2)) := by
    intro a b hab
    tauto
  by_cases hpq : p = q
  · subst hpq; exact le_refl _
  · rcases hOr.forall hsym hp hq hpq with h | h
    · exact h.2
    · exact absurd hlt (not_lt.mpr h.1)

/-! Section: The tie-handling walk, index by index -/

theorem rankWalk_get_lt {α : Type} (f : α → ℚ) :
    ∀ (l : List α) (j i cur : Nat) (prev : ℚ) (h1 : j + 1 < l.length)
      (h2 : j + 1 < (rankWalk f l i cur prev).length),
      f (l[j + 1]) < f (l[j]) →
        ((rankWalk f l i cur prev)[j + 1]).2 = i + j + 2 := by
  intro l
  induction l with
  | nil => intro j i cur prev h1; simp at h1
  | cons x rest ih =>
    intro j i cur prev h1 h2 hlt
    cases j with
    | zero =>
      cases rest with
      | nil => simp at h1
      | cons y rest2 =>
        simp only [rankWalk, List.getElem_cons_succ, List.getElem_cons_zero] at hlt ⊢
        have hg : (0 < i + 1 ∧ f y < f x) := ⟨Nat.succ_pos i, hlt⟩
        simp [rankWalk, hg]
    | succ jj =>
      simp only [List.length_cons] at h1
      have h1r : jj + 1 < rest.length := by omega
      have h2r : jj + 1 < (rankWalk f rest (i + 1)
          (if 0 < i ∧ f x < prev then i + 1 else cur) (f x)).length := by
        rw [rankWalk_length]; omega
      have hlt2 : f (rest[jj + 1]) < f (rest[jj]) := by
        simpa using hlt
      have hres := ih jj (i + 1) (if 0 < i ∧ f x < prev then i + 1 else cur) (f x)
        h1r h2r hlt2
      simp only [rankWalk, List.getElem_cons_succ]
      exact hres.trans (by omega)


theorem rankWalk_get_not_lt {α : Type} (f : α → ℚ) :
    ∀ (l : List α) (j i cur : Nat) (prev : ℚ) (h1 : j + 1 < l.length)
      (h2 : j + 1 < (rankWalk f l i cur prev).length),
      ¬ f (l[j + 1]) < f (l[j]) →
        ((rankWalk f l i cur prev)[j + 1]).2 = ((rankWalk f l i cur prev)[j]).2 := by
  intro l
  induction l with
  | nil => intro j i cur prev h1; simp at h1
  | cons x rest ih =>
    intro j i cur prev h1 h2 hnlt
    cases j with
    | zero =>
      cases rest with
      | nil => simp at h1
      | cons y rest2 =>
        simp only [List.getElem_cons_succ, List.getElem_cons_zero] at hnlt
        have hg : ¬(0 < i + 1 ∧ f y < f x) := fun hc => hnlt hc.2
        simp [rankWalk, hg, hnlt]
    | succ jj =>
      simp only [List.length_cons] at h1
      have h1r : jj + 1 < rest.length := by omega
      have h2r : jj + 1 < (rankWalk f rest (i + 1)
          (if 0 < i ∧ f x < prev then i + 1 else cur) (f x)).length := by
        rw [rankWalk_length]; omega
      have hnlt2 : ¬ f (rest[jj + 1]) < f (rest[jj]) := by
        simpa using hnlt
      have hres := ih jj (i + 1) (if 0 < i ∧ f x < prev then i + 1 else cur) (f x)
        h1r h2r hnlt2
      simp only [rankWalk, List.getElem_cons_succ]
      exact hres

/-! Section: Claims about the score aggregator -/

/-- Claim C2: `grade` maps every numeric total by half-open, non-overlapping
lower-inclusive bands: `total ≥ 80 → A`, `70 ≤ total < 80 → B`,
`60 ≤ total < 70 → C`, `50 ≤ total < 60 → D`, `total < 50 → F`; in
particular 80.00 → A, 79.99 → B, 50.00 → D, 49.99 → F. -/
theorem claim_C2_grade_bands :
    (∀ t : ℚ,
      (80 ≤ t → grade t = "A") ∧
      (70 ≤ t ∧ t < 80 → grade t = "B") ∧
      (60 ≤ t ∧ t < 70 → grade t = "C") ∧
      (50 ≤ t ∧ t < 60 → grade t = "D") ∧
      (t < 50 → grade t = "F")) ∧
    grade 80 = "A" ∧ grade (7999 / 100) = "B" ∧
    grade 50 = "D" ∧ grade (4999 / 100) = "F" := by
  constructor
  · intro t
    refine ⟨fun h => ?_, fun h => ?_, fun h => ?_, fun h => ?_, fun h => ?_⟩
    · unfold grade
      rw [if_pos h]
    · unfold grade
      rw [if_neg (show ¬t ≥ 80 by rcases h with ⟨h1, h2⟩; linarith),
        if_pos (show t ≥ 70 from h.1)]
    · unfold grade
      rw [if_neg (show ¬t ≥ 80 by rcases h with ⟨h1, h2⟩; linarith),
        if_neg (show ¬t ≥ 70 by rcases h with ⟨h1, h2⟩; linarith),
        if_pos (show t ≥ 60 from h.1)]
    · unfold grade
      rw [if_neg (show ¬t ≥ 80 by rcases h with ⟨h1, h2⟩; linarith),
        if_neg (show ¬t ≥ 70 by rcases h with ⟨h1, h2⟩; linarith),
        if_neg (show ¬t ≥ 60 by rcases h with ⟨h1, h2⟩; linarith),
        if_pos (show t ≥ 50 from h.1)]
    · unfold grade
      rw [if_neg (show ¬t ≥ 80 by linarith), if_neg (show ¬t ≥ 70 by linarith),
        if_neg (show ¬t ≥ 60 by linarith), if_neg (show ¬t ≥ 50 by linarith)]
  · refine ⟨?_, ?_, ?_, ?_⟩ <;> with_unfolding_all decide

/-- Witness for C2: each band is inhabited at a concrete total. -/
theorem claim_C2_grade_bands_witness :
    grade 85 = "A" ∧ grade 75 = "B" ∧ grade 65 = "C" ∧ grade 55 = "D" ∧
      grade 45 = "F" :=
  ⟨(claim_C2_grade_bands.1 85).1 (by norm_num),
   (claim_C2_grade_bands.1 75).2.1 (by norm_num),
   (claim_C2_grade_bands.1 65).2.2.1 (by norm_num),
   (claim_C2_grade_bands.1 55).2.2.2.1 (by norm_num),
   (claim_C2_grade_bands.1 45).2.2.2.2 (by norm_num)⟩

/-- Claim C6: for components each in [0, 50], `total_score` is their exact
sum and lies in [0, 100]. -/
theorem claim_C6_total_is_exact_sum_in_range :
    ∀ r : Score, 0 ≤ r.class_score → r.class_score ≤ 50 →
      0 ≤ r.exam_score → r.exam_score ≤ 50 →
      total_score r = r.class_score + r.exam_score ∧
        0 ≤ total_score r ∧ total_score r ≤ 100 := by
  intro r h1 h2 h3 h4
  refine ⟨rfl, ?_, ?_⟩ <;> unfold total_score <;> linarith

/-- Witness for C6 at the concrete record with components 45 and 45. -/
theorem claim_C6_total_is_exact_sum_in_range_witness :
    total_score (demoScore 1 45 45) = 45 + 45 ∧
      0 ≤ total_score (demoScore 1 45 45) ∧ total_score (demoScore 1 45 45) ≤ 100 :=
  claim_C6_total_is_exact_sum_in_range (demoScore 1 45 45)
    (by norm_num [demoScore]) (by norm_num [demoScore])
    (by norm_num [demoScore]) (by norm_num [demoScore])

/-- Claim C7: `remarks` maps the five letter grades to the five fixed
strings, and the composed remark of a total is a pure function of its
grade. -/
theorem claim_C7_remarks_and_purity :
    remarks "A" = "Excellent" ∧ remarks "B" = "Very Good" ∧
    remarks "C" = "Good" ∧ remarks "D" = "Pass" ∧ remarks "F" = "Fail" ∧
    (∀ t1 t2 : ℚ, grade t1 = grade t2 →
      remarks (grade t1) = remarks (grade t2)) := by
  refine ⟨rfl, rfl, rfl, rfl, rfl, ?_⟩
  intro t1 t2 h
  rw [h]

/-- Witness for C7: purity applied at two totals in the same band. -/
theorem claim_C7_remarks_and_purity_witness :
    remarks (grade 85) = remarks (grade 95) :=
  claim_C7_remarks_and_purity.2.2.2.2.2 85 95 (by with_unfolding_all decide)

/-- Claim C9: grade and remark derivations are total over all rationals:
below 50 (negatives included) the grade is F with remark Fail, and at 80 or
above (totals above 100 included) the grade is A with remark Excellent. -/
theorem claim_C9_grade_total_beyond_range :
    (∀ t : ℚ, t < 50 → grade t = "F" ∧ remarks (grade t) = "Fail") ∧
    (∀ t : ℚ, 80 ≤ t → grade t = "A" ∧ remarks (grade t) = "Excellent") ∧
    grade (-10) = "F" ∧ remarks (grade (-10)) = "Fail" ∧
    grade 150 = "A" ∧ remarks (grade 150) = "Excellent" := by
  refine ⟨?_, ?_, ?_, ?_, ?_, ?_⟩
  · intro t h
    have hg : grade t = "F" := by
      unfold grade
      rw [if_neg (show ¬t ≥ 80 by linarith), if_neg (show ¬t ≥ 70 by linarith),
        if_neg (show ¬t ≥ 60 by linarith), if_neg (show ¬t ≥ 50 by linarith)]
    exact ⟨hg, by rw [hg]; rfl⟩
  · intro t h
    have hg : grade t = "A" := by
      unfold grade
      rw [if_pos (show t ≥ 80 from h)]
    exact ⟨hg, by rw [hg]; rfl⟩
  all_goals with_unfolding_all decide

/-- Witness for C9 at the out-of-range totals -300 and 1000. -/
theorem claim_C9_grade_total_beyond_range_witness :
    (grade (-300) = "F" ∧ remarks (grade (-300)) = "Fail") ∧
      (grade 1000 = "A" ∧ remarks (grade 1000) = "Excellent") :=
  ⟨claim_C9_grade_total_beyond_range.1 (-300) (by norm_num),
   claim_C9_grade_total_beyond_range.2.1 1000 (by norm_num)⟩

/-! Section: Claims about the rank calculator -/

/-- Claim C3: a student with no record for subject X is absent from the
per-subject position dict for X, while a student on the roster with no
records at all for the term and year is still in the overall ranking, with
ranking value 0. -/
theorem claim_C3_missing_score_asymmetry :
    (∀ (scores : List Score) (st X : Nat),
        (∀ r ∈ scores, ¬(r.student = st ∧ r.subject = X)) →
        dictGet (calculate_subject_positions scores) (st, X) = none) ∧
    (∀ (students : List Nat) (scores : List Score) (year term st : Nat),
        st ∈ students →
        (∀ r ∈ scores, ¬(r.student = st ∧ r.academic_year = year ∧ r.term = term)) →
        dictGet (student_averages students scores year term) st = some 0 ∧
          dictGet (calculate_class_positions students scores year term) st ≠ none) := by
  constructor
  · intro scores st X h
    rw [dictGet_calculate_subject_positions]
    split
    · apply dictGet_eq_none_of_no_key
      intro p hp hpk
      rcases subjectBlock_shape hp with ⟨r, hr, hrs, hp1⟩
      rw [hp1] at hpk
      have hstu : r.student = st := congrArg Prod.fst hpk
      exact h r hr ⟨hstu, hrs⟩
    · rfl
  · intro students scores year term st hst h
    have hempty : studentScores scores year term st = [] := by
      simp only [studentScores, List.filter_eq_nil_iff]
      intro r hr
      have hr2 := h r hr
      simp only [Bool.and_eq_true, beq_iff_eq, not_and]
      tauto
    constructor
    · rw [dictGet_student_averages scores year term hst, averageValue_of_empty hempty]
    · exact dictGet_ne_none_of_key (mem_key_calculate_class_positions hst)

/-- Witness for C3: student 99 has no record for subject 7 in the demo
cohort, so is absent from the positions of that subject, yet (being on the
roster) gets overall ranking value 0 and an overall position. -/
theorem claim_C3_missing_score_asymmetry_witness :
    dictGet (calculate_subject_positions demoScores) (99, 7) = none ∧
      (dictGet (student_averages [1, 99] demoScores 2 2) 99 = some 0 ∧
        dictGet (calculate_class_positions [1, 99] demoScores 2 2) 99 ≠ none) :=
  ⟨claim_C3_missing_score_asymmetry.1 demoScores 99 7 (by with_unfolding_all decide),
   claim_C3_missing_score_asymmetry.2 [1, 99] demoScores 2 2 99
     (by with_unfolding_all decide) (by with_unfolding_all decide)⟩

/-- Claim C4: for a student with at least one record in the cohort for the
term and year, the ranking value that `calculate_class_positions` sorts by
is the arithmetic mean (sum divided by count) of `total_score` over that
records of that student. -/
theorem claim_C4_overall_value_is_mean :
    ∀ (students : List Nat) (scores : List Score) (year term st : Nat),
      st ∈ students → studentScores scores year term st ≠ [] →
      dictGet (student_averages students scores year term) st =
        some (((studentScores scores year term st).map total_score).sum /
          ((studentScores scores year term st).length : ℚ)) := by
  intro students scores year term st hst hne
  rw [dictGet_student_averages scores year term hst, averageValue_of_nonempty hne]

/-- Witness for C4: in a two-subject cohort, student 1 with totals 90 and
70 is ranked by 80, the mean, not by the sum 160. -/
theorem claim_C4_overall_value_is_mean_witness :
    dictGet (student_averages [1] [demoScore 1 45 45, ⟨1, 8, 1, 1, 35, 35⟩] 1 1) 1 =
      some ((((studentScores [demoScore 1 45 45, ⟨1, 8, 1, 1, 35, 35⟩] 1 1 1).map
        total_score).sum) / ((studentScores [demoScore 1 45 45, ⟨1, 8, 1, 1, 35, 35⟩] 1 1 1).length : ℚ)) :=
  claim_C4_overall_value_is_mean [1] [demoScore 1 45 45, ⟨1, 8, 1, 1, 35, 35⟩] 1 1 1
    (by with_unfolding_all decide) (by with_unfolding_all decide)

/-- Claim C5: both ranking operations are total: an empty cohort yields an
empty rank map, a single-entity cohort yields rank 1, and arbitrary numeric
values, negative scores included, are ranked without any error branch. -/
theorem claim_C5_totality_and_edge_cases :
    calculate_subject_positions [] = [] ∧
    (∀ (scores : List Score) (year term : Nat),
        calculate_class_positions [] scores year term = []) ∧
    (∀ r : Score, calculate_subject_positions [r] = [((r.student, r.subject), 1)]) ∧
    (∀ (st : Nat) (scores : List Score) (year term : Nat),
        calculate_class_positions [st] scores year term = [(st, 1)]) ∧
    dictGet (calculate_subject_positions negDemoScores) (2, 3) = some 1 ∧
    dictGet (calculate_subject_positions negDemoScores) (1, 3) = some 2 := by
  refine ⟨rfl, ?_, ?_, ?_, ?_, ?_⟩
  · intro scores year term
    rfl
  · intro r
    simp [calculate_subject_positions, dedupFirst, subjectBlock, subjectGroup,
      sortCE, sortDescBy, assignRanks, rankWalk, List.insertionSort,
      List.orderedInsert]
  · intro st scores year term
    simp [calculate_class_positions, student_averages, dedupFirst, sortDescBy,
      assignRanks, rankWalk, List.insertionSort, List.orderedInsert]
  · with_unfolding_all decide
  · with_unfolding_all decide

/-- Claim C8: per-subject positions are independent across subjects: two
cohort score sets with exactly the same records for subject s produce the
same position for every (student, s) key, whatever their records for other
subjects; and the computation is deterministic — ranking the same input
twice yields the same map. -/
theorem claim_C8_subject_noninterference :
    (∀ (scores1 scores2 : List Score) (s : Nat),
        subjectGroup scores1 s = subjectGroup scores2 s →
        ∀ st : Nat,
          dictGet (calculate_subject_positions scores1) (st, s) =
            dictGet (calculate_subject_positions scores2) (st, s)) ∧
    (∀ scores : List Score,
        calculate_subject_positions scores = calculate_subject_positions scores) := by
  constructor
  · intro scores1 scores2 s hgroup st
    rw [dictGet_calculate_subject_positions, dictGet_calculate_subject_positions]
    have hblock : subjectBlock scores1 s = subjectBlock scores2 s := by
      unfold subjectBlock
      rw [hgroup]
    have hmem : s ∈ dedupFirst (scores1.map (fun r => r.subject)) ↔
        s ∈ dedupFirst (scores2.map (fun r => r.subject)) := by
      rw [mem_subjectsOf_iff, mem_subjectsOf_iff]
      constructor
      · rintro ⟨r, hr, hrs⟩
        have hm : r ∈ subjectGroup scores1 s := mem_subjectGroup.mpr ⟨hr, hrs⟩
        rw [hgroup] at hm
        rcases mem_subjectGroup.mp hm with ⟨h1, h2⟩
        exact ⟨r, h1, h2⟩
      · rintro ⟨r, hr, hrs⟩
        have hm : r ∈ subjectGroup scores2 s := mem_subjectGroup.mpr ⟨hr, hrs⟩
        rw [← hgroup] at hm
        rcases mem_subjectGroup.mp hm with ⟨h1, h2⟩
        exact ⟨r, h1, h2⟩
    by_cases h1 : s ∈ dedupFirst (scores1.map (fun r => r.subject))
    · rw [if_pos h1, if_pos (hmem.mp h1), hblock]
    · rw [if_neg h1, if_neg (fun h => h1 (hmem.mpr h))]
  · intro scores
    rfl

/-- Witness for C8: the subject-3 records agree between `negDemoScores` and
a variant that differs only in subject-5 records, so every subject-3
position agrees. -/
theorem claim_C8_subject_noninterference_witness :
    dictGet (calculate_subject_positions negDemoScores) (1, 3) =
      dictGet (calculate_subject_positions
        (negDemoScores ++ [⟨9, 5, 1, 1, 30, 30⟩])) (1, 3) :=
  claim_C8_subject_noninterference.1 negDemoScores
    (negDemoScores ++ [⟨9, 5, 1, 1, 30, 30⟩]) 3 (by with_unfolding_all decide) 1

theorem subjectBlock_rank_one {scores : List Score} {s : Nat}
    (hne : subjectGroup scores s ≠ []) :
    ∃ st, ((st, s), 1) ∈ subjectBlock scores s := by
  have hlen : (sortDescBy total_score (sortCE (subjectGroup scores s))).length =
      (subjectGroup scores s).length := by
    rw [sortDescBy_length, sortCE_length]
  cases hL : sortDescBy total_score (sortCE (subjectGroup scores s)) with
  | nil =>
    rw [hL] at hlen
    exact absurd (List.length_eq_zero.mp hlen.symm) hne
  | cons x rest =>
    refine ⟨x.student, ?_⟩
    simp only [subjectBlock, List.mem_map]
    refine ⟨(x, 1), ?_, rfl⟩
    rw [hL]
    rcases assignRanks_head_rank_one total_score x rest with ⟨xr, hxr, hxeq⟩
    exact hxeq ▸ hxr

theorem calculate_class_positions_rank_one {students : List Nat} {scores : List Score}
    {year term : Nat} (hne : students ≠ []) :
    ∃ st, (st, 1) ∈ calculate_class_positions students scores year term := by
  have hlen : (sortDescBy Prod.snd (student_averages students scores year term)).length =
      (dedupFirst students).length := by
    rw [sortDescBy_length]
    simp [student_averages]
  cases hL : sortDescBy Prod.snd (student_averages students scores year term) with
  | nil =>
    exfalso
    rw [hL] at hlen
    cases students with
    | nil => exact hne rfl
    | cons a as => simp [dedupFirst] at hlen
  | cons x rest =>
    refine ⟨x.1, ?_⟩
    simp only [calculate_class_positions, List.mem_map]
    refine ⟨(x, 1), ?_, rfl⟩
    rw [hL]
    rcases assignRanks_head_rank_one Prod.snd x rest with ⟨xr, hxr, hxeq⟩
    exact hxeq ▸ hxr

/-- Claim C10: in every rank map either operation produces, each rank lies
between 1 and the size of its group, each non-empty group has an entity of
rank 1, ranks are non-decreasing along the value-descending sorted order,
and a strictly greater value never gets a greater rank. -/
theorem claim_C10_rank_invariants :
    (∀ (scores : List Score) (p : (Nat × Nat) × Nat),
        p ∈ calculate_subject_positions scores →
        1 ≤ p.2 ∧ p.2 ≤ (subjectGroup scores p.1.2).length) ∧
    (∀ (students : List Nat) (scores : List Score) (year term : Nat) (p : Nat × Nat),
        p ∈ calculate_class_positions students scores year term →
        1 ≤ p.2 ∧ p.2 ≤ (dedupFirst students).length) ∧
    (∀ (scores : List Score) (s : Nat), subjectGroup scores s ≠ [] →
        ∃ st, ((st, s), 1) ∈ calculate_subject_positions scores) ∧
    (∀ (students : List Nat) (scores : List Score) (year term : Nat), students ≠ [] →
        ∃ st, (st, 1) ∈ calculate_class_positions students scores year term) ∧
    (∀ (α : Type) (f : α → ℚ) (l : List α),
        List.Sorted (fun a b => a ≤ b) ((assignRanks f (sortDescBy f l)).map Prod.snd)) ∧
    (∀ (α : Type) (f : α → ℚ) (l : List α) (p q : α × Nat),
        p ∈ assignRanks f (sortDescBy f l) → q ∈ assignRanks f (sortDescBy f l) →
        f q.1 < f p.1 → p.2 ≤ q.2) := by
  refine ⟨?_, ?_, ?_, ?_, ?_, ?_⟩
  · intro scores p hp
    rcases List.mem_flatMap.mp hp with ⟨s, hs, hpb⟩
    have hkey := subjectBlock_key hpb
    simp only [subjectBlock, List.mem_map] at hpb
    rcases hpb with ⟨q, hq, hpq⟩
    have hb := rankWalk_bounds total_score
      (sortDescBy total_score (sortCE (subjectGroup scores s))) 0 1 0
      (le_refl 1) (by omega) q hq
    have hlen : (sortDescBy total_score (sortCE (subjectGroup scores s))).length =
        (subjectGroup scores s).length := by
      rw [sortDescBy_length, sortCE_length]
    have hp2 : p.2 = q.2 := by rw [← hpq]
    rw [hkey]
    omega
  · intro students scores year term p hp
    simp only [calculate_class_positions, List.mem_map] at hp
    rcases hp with ⟨q, hq, hpq⟩
    have hb := rankWalk_bounds Prod.snd
      (sortDescBy Prod.snd (student_averages students scores year term)) 0 1 0
      (le_refl 1) (by omega) q hq
    have hlen : (sortDescBy Prod.snd (student_averages students scores year term)).length =
        (dedupFirst students).length := by
      rw [sortDescBy_length]
      simp [student_averages]
    have hp2 : p.2 = q.2 := by rw [← hpq]
    omega
  · intro scores s hne
    rcases subjectBlock_rank_one hne with ⟨st, hst⟩
    refine ⟨st, List.mem_flatMap.mpr ⟨s, ?_, hst⟩⟩
    rcases List.exists_mem_of_ne_nil _ hne with ⟨r, hr⟩
    rcases mem_subjectGroup.mp hr with ⟨h1, h2⟩
    exact (mem_subjectsOf_iff scores s).mpr ⟨r, h1, h2⟩
  · intro students scores year term hne
    exact calculate_class_positions_rank_one hne
  · intro α f l
    exact List.pairwise_map.mpr (rankWalk_pairwise_rank f (sortDescBy f l) 0 1 0 (by omega))
  · intro α f l p q hp hq hlt
    exact rankMap_le_of_lt f l p q hp hq hlt

/-- Witness for C10 on the two-record negative-score cohort. -/
theorem claim_C10_rank_invariants_witness :
    (1 ≤ (((2, 3), 1) : (Nat × Nat) × Nat).2 ∧
      (((2, 3), 1) : (Nat × Nat) × Nat).2 ≤
        (subjectGroup negDemoScores (((2, 3), 1) : (Nat × Nat) × Nat).1.2).length) ∧
    (1 ≤ (((2, 1)) : Nat × Nat).2 ∧
      (((2, 1)) : Nat × Nat).2 ≤ (dedupFirst [1, 2]).length) ∧
    (∃ st, ((st, 3), 1) ∈ calculate_subject_positions negDemoScores) ∧
    (∃ st, (st, 1) ∈ calculate_class_positions [1, 2] negDemoScores 1 1) ∧
    (((2 : ℚ), 1) : ℚ × Nat).2 ≤ (((1 : ℚ), 2) : ℚ × Nat).2 :=
  ⟨claim_C10_rank_invariants.1 negDemoScores ((2, 3), 1) (by with_unfolding_all decide),
   claim_C10_rank_invariants.2.1 [1, 2] negDemoScores 1 1 (2, 1)
     (by with_unfolding_all decide),
   claim_C10_rank_invariants.2.2.1 negDemoScores 3 (by with_unfolding_all decide),
   claim_C10_rank_invariants.2.2.2.1 [1, 2] negDemoScores 1 1 (by with_unfolding_all decide),
   claim_C10_rank_invariants.2.2.2.2.2 ℚ id [1, 2] ((2 : ℚ), 1) ((1 : ℚ), 2)
     (by with_unfolding_all decide) (by with_unfolding_all decide) (by norm_num)⟩

/-- Claim C1: the shared ranking algorithm produces standard dense
competition ("1224") ranks: walking the value-descending sorted list, the
entry at index i+1 gets rank i+2 when its value is strictly less than the
value of the previous entry and inherits the current rank when equal; the values
[90, 90, 80, 70, 70, 70] yield ranks [1, 1, 3, 4, 4, 4] through both
`calculate_subject_positions` and `calculate_class_positions`. -/
theorem claim_C1_dense_competition_ranking :
    (∀ (α : Type) (f : α → ℚ) (l : List α) (j : Nat) (h1 : j + 1 < l.length)
        (h2 : j + 1 < (assignRanks f l).length),
        (f (l[j + 1]) < f (l[j]) → ((assignRanks f l)[j + 1]).2 = j + 2) ∧
        (f (l[j + 1]) = f (l[j]) →
          ((assignRanks f l)[j + 1]).2 = ((assignRanks f l)[j]).2)) ∧
    (dictGet (calculate_subject_positions demoScores) (1, 7) = some 1 ∧
     dictGet (calculate_subject_positions demoScores) (2, 7) = some 1 ∧
     dictGet (calculate_subject_positions demoScores) (3, 7) = some 3 ∧
     dictGet (calculate_subject_positions demoScores) (4, 7) = some 4 ∧
     dictGet (calculate_subject_positions demoScores) (5, 7) = some 4 ∧
     dictGet (calculate_subject_positions demoScores) (6, 7) = some 4) ∧
    (calculate_class_positions [1, 2, 3, 4, 5, 6] demoScores 1 1).map Prod.snd =
      [1, 1, 3, 4, 4, 4] := by
  refine ⟨?_, ?_, ?_⟩
  · intro α f l j h1 h2
    constructor
    · intro hlt
      exact (rankWalk_get_lt f l j 0 1 0 h1 h2 hlt).trans (by omega)
    · intro heq
      exact rankWalk_get_not_lt f l j 0 1 0 h1 h2 (by rw [heq]; exact lt_irrefl _)
  · refine ⟨?_, ?_, ?_, ?_, ?_, ?_⟩ <;> with_unfolding_all decide
  · with_unfolding_all decide

/-- Witness for C1: on the sorted values [90, 90, 80, 70, 70, 70], the
entry at index 2 (a strict drop) gets rank 3, and the entry at index 1 (a
tie) inherits the rank of index 0. -/
theorem claim_C1_dense_competition_ranking_witness :
    ((assignRanks id [(90 : ℚ), 90, 80, 70, 70, 70]).get
        ⟨2, by with_unfolding_all decide⟩).2 = 1 + 2 ∧
    ((assignRanks id [(90 : ℚ), 90, 80, 70, 70, 70]).get
        ⟨1, by with_unfolding_all decide⟩).2 =
      ((assignRanks id [(90 : ℚ), 90, 80, 70, 70, 70]).get
        ⟨0, by with_unfolding_all decide⟩).2 :=
  ⟨(claim_C1_dense_competition_ranking.1 ℚ id [(90 : ℚ), 90, 80, 70, 70, 70] 1
      (by with_unfolding_all decide) (by with_unfolding_all decide)).1
      (by with_unfolding_all decide),
   (claim_C1_dense_competition_ranking.1 ℚ id [(90 : ℚ), 90, 80, 70, 70, 70] 0
      (by with_unfolding_all decide) (by with_unfolding_all decide)).2
      (by with_unfolding_all decide)⟩

end StudentRpt
